import Mathlib

/-!
Shallow embedding of the wavelength-calibration engine of PyReduce
(`pyreduce/wavelength_calibration.py`, with numeric helpers from
`pyreduce/util.py`) and proofs about its behaviour.

Machine reals of the source are modelled as exact rationals; numpy masked
entries are modelled as `Option` with `none` for a masked value; numpy
exceptions are modelled as `Option`/explicit error outcomes.  The numerical
least-squares kernels (`np.polyfit` / `scipy lstsq` / `scipy least_squares`)
are abstracted as function parameters: every theorem about the surrounding
control flow is proved for an arbitrary kernel.
-/

set_option linter.unusedVariables false

namespace PyReduce

/-- Speed of light in m/s, from `scipy.constants.speed_of_light` (exact). -/
def speed_of_light : ℚ := 299792458

/-- One record of the reference line list (the `linelist` recarray of the
source): expected wavelength `wll`, fitted pixel position `posm`, original
position `posc`, spectral `order`, extent `xfirst`/`xlast`, Gaussian `width`
and `height`, and the usage `flag`. -/
structure Line where
  wll : ℚ
  posm : ℚ
  posc : ℚ
  order : ℤ
  xfirst : ℤ
  xlast : ℤ
  width : ℚ
  height : ℚ
  flag : Bool
deriving Repr, DecidableEq

instance : Inhabited Line := ⟨⟨0, 0, 0, 0, 0, 0, 0, 0, false⟩⟩

/-- `np.polyval p x` with coefficients from the highest degree down (Horner). -/
def polyval (p : List ℚ) (x : ℚ) : ℚ := p.foldl (fun acc c => acc * x + c) 0

/-- `numpy.polynomial.polynomial.polyval2d x y c = Σ_ij c[i][j] * x^i * y^j`. -/
def polyval2d (x y : ℚ) (c : List (List ℚ)) : ℚ :=
  (c.enum.map (fun p => (p.2.enum.map (fun q => q.2 * x ^ p.1 * y ^ q.1)).sum)).sum

/-- A wavelength solution: per-order 1D coefficients (`np.polyfit` layout,
indexed by order) or a single 2D coefficient matrix (`polyval2d` layout), as
produced by `build_2d_solution` in modes "1D" / "2D". -/
inductive WSolution where
  | oneD (coef : List (List ℚ))
  | twoD (coef : List (List ℚ))
deriving Repr, DecidableEq

/-- `evaluate_solution` at a single point (the source maps this over arrays):
mode "1D" evaluates the order's polynomial `np.polyval(solution[order], pos)`,
mode "2D" evaluates the surface `polyval2d(pos, order, solution)`. -/
def evaluate_solution : WSolution → ℚ → ℤ → ℚ
  | .oneD c, pos, ord => polyval (c.getD ord.toNat []) pos
  | .twoD c, pos, ord => polyval2d pos (ord : ℚ) c

/-- Velocity-space residual of one line, as in `calculate_residual`:
`(solution - wll) / wll * speed_of_light`. -/
def lineResidual (sol : WSolution) (l : Line) : ℚ :=
  (evaluate_solution sol l.posm l.order - l.wll) / l.wll * speed_of_light

/-- `calculate_residual`: the masked residual array; `none` stands for a masked
entry (the mask is `~lines["flag"]`). -/
def calculate_residual (sol : WSolution) (lines : List Line) : List (Option ℚ) :=
  lines.map (fun l => if l.flag then some (lineResidual sol l) else none)

/-- `np.ma.any(np.abs(residual) > threshold)`: masked entries are ignored. -/
def anyExceeds (thr : ℚ) (rs : List (Option ℚ)) : Bool :=
  rs.any (fun r => match r with
    | some v => decide (|v| > thr)
    | none => false)

/-- `np.ma.argmax(np.abs(residual))`: index of the first unmasked entry of
maximal absolute value (0 when everything is masked). -/
def maArgmaxAbs (rs : List (Option ℚ)) : ℕ :=
  match rs.enum.filterMap (fun p => p.2.map (fun v => (p.1, |v|))) with
  | [] => 0
  | x :: xs => (xs.foldl (fun b p => if p.2 > b.2 then p else b) x).1

/-- Set `flag := False` on the line at the given index
(`lines["flag"][ibad] = False`). -/
def unflagAt : List Line → ℕ → List Line
  | [], _ => []
  | l :: ls, 0 => { l with flag := false } :: ls
  | l :: ls, n + 1 => l :: unflagAt ls n

/-- `reject_outlier`: unflag the strongest outlier of the residual array. -/
def reject_outlier (residual : List (Option ℚ)) (lines : List Line) : List Line :=
  unflagAt lines (maArgmaxAbs residual)

/-- Number of flagged lines. -/
def flaggedCount (lines : List Line) : ℕ := lines.countP (fun l => l.flag)

/-- Outcome of `reject_lines`.  `fitError` models `build_2d_solution` raising
(`reject_lines` has no handler, the exception propagates); `outOfFuel` is the
bookkeeping case of the fuel-indexed loop, shown unreachable in the
termination theorem. -/
inductive RejectOutcome where
  | ok (lines : List Line) (nbad : ℕ)
  | fitError (nbad : ℕ)
  | outOfFuel
deriving Repr, DecidableEq

/-- The loop of `reject_lines`, with the solution builder abstracted as `fit`
(`none` = the builder raises).  Each pass builds the solution from the current
flags, computes the masked residuals and, while any flagged residual exceeds
the threshold, unflags the strongest outlier, counting rejections in `nbad`. -/
def rejectLoop (fit : List Line → Option WSolution) (thr : ℚ) :
    ℕ → List Line → ℕ → RejectOutcome
  | 0, _, _ => .outOfFuel
  | fuel + 1, lines, nbad =>
    match fit lines with
    | none => .fitError nbad
    | some sol =>
      let residual := calculate_residual sol lines
      if anyExceeds thr residual then
        rejectLoop fit thr fuel (reject_outlier residual lines) (nbad + 1)
      else .ok lines nbad

/-- `reject_lines`: run the rejection loop; the fuel `length + 1` is
sufficient, see the termination theorem. -/
def reject_lines (fit : List Line → Option WSolution) (thr : ℚ)
    (lines : List Line) : RejectOutcome :=
  rejectLoop fit thr (lines.length + 1) lines 0

/-- Concrete solution builder used to instantiate the abstract kernel in
witnesses: always returns the constant polynomial 1 for order 0. -/
def fitW : List Line → Option WSolution := fun _ => some (.oneD [[1]])

/-- Concrete one-line list whose single line has zero residual under `fitW`. -/
def linesW : List Line :=
  [{ wll := 1, posm := 0, posc := 0, order := 0, xfirst := 0, xlast := 0,
     width := 1, height := 1, flag := true }]

/-- The per-line field update of `apply_alignment_offset`: the pixel offset is
added to `xfirst`, `xlast` and `posm`, the order offset to `order`.  (The
source does not touch `posc`.) -/
def applyOff (off : ℤ × ℤ) (l : Line) : Line :=
  { l with xfirst := l.xfirst + off.2, xlast := l.xlast + off.2,
           posm := l.posm + (off.2 : ℚ), order := l.order + off.1 }

/-- `apply_alignment_offset`: `select = none` models the default
`slice(None)` (all lines); `select = some mask` models a boolean mask of the
same length as the line list. -/
def apply_alignment_offset (lines : List Line) (off : ℤ × ℤ)
    (select : Option (List Bool)) : List Line :=
  match select with
  | none => lines.map (applyOff off)
  | some mask =>
      lines.enum.map (fun p => if mask.getD p.1 false then applyOff off p.2 else p.2)

/-- Concrete line for the C10 counterexample. -/
def lineC10 : Line :=
  { wll := 7, posm := 2, posc := 3, order := 1, xfirst := 0, xlast := 4,
    width := 1, height := 1, flag := true }

/-- `np.size` of a wavelength solution (total number of coefficients). -/
def solutionSize : WSolution → ℕ
  | .oneD c => (c.map List.length).sum
  | .twoD c => (c.map List.length).sum

/-- Sample count of `calculate_AIC`: `n = len(p_wave)`, i.e. ALL lines — the
source never consults the flag here. -/
def aic_n (lines : List Line) : ℕ := lines.length

/-- Residual sum of squares of `calculate_AIC`:
`rss = np.sum((p_wave - m_wave)**2)` with `p_wave` evaluated at `posc` of ALL
lines — the source never consults the flag here. -/
def aic_rss (sol : WSolution) (lines : List Line) : ℚ :=
  (lines.map (fun l => (evaluate_solution sol l.posc l.order - l.wll) ^ 2)).sum

/-- `calculate_AIC` (non-step mode): `k = np.size(solution) + 1`,
`logl = -n/2 (1 + log 2π + log(rss/n))`, `aic = 2k - 2 logl`. -/
noncomputable def calculate_AIC (sol : WSolution) (lines : List Line) : ℝ :=
  let k : ℝ := (solutionSize sol : ℝ) + 1
  let n : ℝ := (aic_n lines : ℝ)
  let rss : ℝ := ((aic_rss sol lines : ℚ) : ℝ)
  let logl : ℝ := -n / 2 * (1 + Real.log (2 * Real.pi) + Real.log (rss / n))
  2 * k - 2 * logl

/-- The residual sum of squares as the spec's words demand it (refinement
reference, NOT the source's behaviour): only flagged lines contribute. -/
def aic_rss_spec (sol : WSolution) (lines : List Line) : ℚ :=
  ((lines.filter (fun l => l.flag)).map
    (fun l => (evaluate_solution sol l.posc l.order - l.wll) ^ 2)).sum

/-- The sample count as the spec's words demand it (refinement reference, NOT
the source's behaviour): only flagged lines are counted. -/
def aic_n_spec (lines : List Line) : ℕ := (lines.filter (fun l => l.flag)).length

/-- Concrete solution for the C8 counterexample: predicts wavelength 0
everywhere. -/
def solC8 : WSolution := .oneD [[0]]

/-- Concrete lines for the C8 counterexample: one flagged line with zero
residual, one unflagged line with residual 1. -/
def linesC8 : List Line :=
  [{ wll := 0, posm := 0, posc := 0, order := 0, xfirst := 0, xlast := 0,
     width := 1, height := 1, flag := true },
   { wll := 1, posm := 0, posc := 0, order := 0, xfirst := 0, xlast := 0,
     width := 1, height := 1, flag := false }]

/-- `np.polyfit`: raises (`none`) when x is empty or x and y have different
lengths.  Rank deficiency — fewer points than `deg + 1` coefficients — only
emits a `RankWarning`; the underdetermined least-squares solution is still
returned.  The numerical lstsq kernel is abstracted as `kern`. -/
def polyfit (kern : List ℚ → List ℚ → ℕ → List ℚ) (xs ys : List ℚ)
    (deg : ℕ) : Option (List ℚ) :=
  if xs.length = 0 ∨ xs.length ≠ ys.length then none else some (kern xs ys deg)

/-- `np.max` of a 1D float array (junk 0 on the empty list, which numpy turns
into a ValueError — the empty case is tested separately before any use). -/
def maxQ (xs : List ℚ) : ℚ :=
  match xs with
  | [] => 0
  | y :: ys => ys.foldl max y

/-- `util.polyfit2d` with `scale=True`: `np.max` of an empty coordinate array
raises (`none`).  Otherwise the coordinates are rescaled by
`norm_x = np.max(x)` and `norm_y = np.max(y)`; when a norm is exactly 0 every
rescaled value of that coordinate is non-finite (`0/0 = NaN`, negative`/0 =
-inf`), and as soon as that coordinate enters the design matrix with exponent
`≥ 1` (fit degree ≥ 1 in that direction; `NaN ** 0 = 1.0` keeps the constant
column finite) `scipy.linalg.lstsq` — `check_finite=True` — raises
ValueError (`none`).  In every other case the (possibly underdetermined)
least-squares solution is returned with no data-count check; the finite
numerics are abstracted as `kern2`. -/
def polyfit2d (kern2 : List ℚ → List ℚ → List ℚ → ℕ × ℕ → List (List ℚ))
    (xs ys zs : List ℚ) (deg : ℕ × ℕ) : Option (List (List ℚ)) :=
  if xs.length = 0 then none
  else if (maxQ xs = 0 ∧ 1 ≤ deg.1) ∨ (maxQ ys = 0 ∧ 1 ≤ deg.2) then none
  else some (kern2 xs ys zs deg)

/-- The per-order fitting loop of `build_2d_solution` in mode "1D":
`for i in range(nord): coef[i] = np.polyfit(m_pix[sel], m_wave[sel], deg)`. -/
def polyfitOrders (kern : List ℚ → List ℚ → ℕ → List ℚ) (deg : ℕ)
    (fl : List Line) : List ℕ → Option (List (List ℚ))
  | [] => some []
  | i :: is =>
    match polyfit kern
        ((fl.filter (fun l => l.order = (i : ℤ))).map (fun l => l.posm))
        ((fl.filter (fun l => l.order = (i : ℤ))).map (fun l => l.wll)) deg with
    | none => none
    | some c => (polyfitOrders kern deg fl is).map (fun cs => c :: cs)

/-- `m_ord.max()`: `none` models the ValueError numpy raises on an empty
array. -/
def maxOrder? (ls : List Line) : Option ℤ :=
  match ls.map (fun l => l.order) with
  | [] => none
  | x :: xs => some (xs.foldl max x)

/-- `build_2d_solution`, mode "1D", `nstep = 0`: select the flagged lines and
fit one polynomial per order `0 .. m_ord.max()`.  `none` models an exception:
`m_ord.max()` of an empty selection raises ValueError, `np.zeros((nord, d+1))`
with negative `nord` raises ValueError, and `np.polyfit` on an order with no
flagged line raises TypeError. -/
def build_2d_solution_1D (kern : List ℚ → List ℚ → ℕ → List ℚ) (deg : ℕ)
    (lines : List Line) : Option WSolution :=
  let fl := lines.filter (fun l => l.flag)
  match maxOrder? fl with
  | none => none
  | some m =>
    if m + 1 < 0 then none
    else (polyfitOrders kern deg fl (List.range (m + 1).toNat)).map .oneD

/-- `build_2d_solution`, mode "2D", `nstep = 0`: a single `util.polyfit2d`
over all flagged lines. -/
def build_2d_solution_2D (kern2 : List ℚ → List ℚ → List ℚ → ℕ × ℕ → List (List ℚ))
    (deg : ℕ × ℕ) (lines : List Line) : Option WSolution :=
  let fl := lines.filter (fun l => l.flag)
  (polyfit2d kern2 (fl.map (fun l => l.posm)) (fl.map (fun l => (l.order : ℚ)))
    (fl.map (fun l => l.wll)) deg).map .twoD

/-- A concrete 1D least-squares kernel (all-zero coefficients), used only to
instantiate the abstraction in closed statements. -/
def kern0 : List ℚ → List ℚ → ℕ → List ℚ := fun _ _ deg => List.replicate (deg + 1) 0

/-- A concrete 2D least-squares kernel, used only to instantiate the
abstraction in closed statements. -/
def kern20 : List ℚ → List ℚ → List ℚ → ℕ × ℕ → List (List ℚ) :=
  fun _ _ _ d => List.replicate (d.1 + 1) (List.replicate (d.2 + 1) 0)

/-- Concrete line list for the C2 counterexample (1D mode): exactly one
usable line, at order 0. -/
def linesC2 : List Line :=
  [{ wll := 5, posm := 10, posc := 10, order := 0, xfirst := 8, xlast := 12,
     width := 1, height := 1, flag := true }]

/-- Concrete line list for the C2 counterexample (2D mode): exactly one
usable line, at order 1 and position 10, so both scale norms are nonzero and
the scale step stays finite. -/
def linesC2b : List Line :=
  [{ wll := 5, posm := 10, posc := 10, order := 1, xfirst := 8, xlast := 12,
     width := 1, height := 1, flag := true }]

/-- `np.diff`: consecutive differences. -/
def npDiff (xs : List ℤ) : List ℤ := List.zipWith (fun a b => b - a) xs xs.tail

/-- Insertion into a sorted list (ascending). -/
def insertSorted (x : ℚ) : List ℚ → List ℚ
  | [] => [x]
  | y :: ys => if x ≤ y then x :: y :: ys else y :: insertSorted x ys

/-- `np.sort` of a 1D float array, modelled as insertion sort (the algorithm
is irrelevant, only the sorted sequence of values matters). -/
def sortAsc (xs : List ℚ) : List ℚ := xs.foldr insertSorted []

/-- `np.median`: middle element of the sorted data for odd length, mean of
the two middle elements for even length.  Junk value 0 for the empty list
(numpy returns NaN there, whose comparisons are all False; every use below
guards the empty case). -/
def median (xs : List ℚ) : ℚ :=
  let s := sortAsc xs
  if xs.length = 0 then 0
  else if xs.length % 2 = 1 then s.getD (xs.length / 2) 0
  else (s.getD (xs.length / 2 - 1) 0 + s.getD (xs.length / 2) 0) / 2

/-- One update `n[j+1:] += δ` of the mode-index array. -/
def bumpAfter (δ : ℤ) (j : ℕ) (n : List ℤ) : List ℤ :=
  n.enum.map (fun p => if j + 1 ≤ p.1 then p.2 + δ else p.2)

/-- The `big gap` test of `_find_peaks`: `diff[j] > 1.5 * np.median(diff)`. -/
def bigGap (diff : List ℤ) (j : ℕ) : Bool :=
  decide ((diff.getD j 0 : ℚ) > 3 / 2 * median (diff.map (fun d : ℤ => (d : ℚ))))

/-- The `small gap` test of `_find_peaks`: `diff[j] < 0.5 * np.median(diff)`. -/
def smallGap (diff : List ℤ) (j : ℕ) : Bool :=
  decide ((diff.getD j 0 : ℚ) < 1 / 2 * median (diff.map (fun d : ℤ => (d : ℚ))))

/-- The provisional mode-index assignment of `_find_peaks`:
`n = arange(len(peaks))`, then `n[j+1:] += 1` for every gap larger than
1.5 × median gap, then `n[j+1:] -= 1` for every gap smaller than
0.5 × median gap. -/
def combModeIndices (peaks : List ℤ) : List ℤ :=
  let n0 : List ℤ := (List.range peaks.length).map (fun i : ℕ => (i : ℤ))
  let diff := npDiff peaks
  let idxBig := (List.range diff.length).filter (bigGap diff)
  let n1 := idxBig.foldl (fun n j => bumpAfter 1 j n) n0
  let idxSmall := (List.range diff.length).filter (smallGap diff)
  idxSmall.foldl (fun n j => bumpAfter (-1) j n) n1

/-- Concrete peak list for C5: even spacing 10 px, one missed peak (gap 21 px)
and one duplicated peak (gap 4 px). -/
def peaksC5 : List ℤ := [0, 10, 20, 41, 51, 61, 65, 75, 85, 95]

/-- Python `int()`: truncation toward zero. -/
def pyInt (q : ℚ) : ℤ := if 0 ≤ q then ⌊q⌋ else -⌊-q⌋

/-- `np.ma.compressed`: the unmasked values. -/
def maCompress (xs : List (Option ℚ)) : List ℚ := xs.filterMap id

/-- `np.min` over the unmasked values (junk 0 on an empty selection; all uses
below are guarded). -/
def maMin (xs : List (Option ℚ)) : ℚ :=
  match maCompress xs with
  | [] => 0
  | y :: ys => ys.foldl min y

/-- `util.gaussfit2`: compress the masked inputs; raise (`none`) when
everything is masked ("All values masked") or the compressed lengths differ
("The masks of x and y are different"); otherwise run the nonlinear
`least_squares` kernel — abstracted as `gk`, itself possibly raising — and
append the fixed offset `np.min(y)`.  Returns `(A, mu, sigma2, offset)`. -/
def gaussfit2 (gk : List ℚ → List ℚ → Option (ℚ × ℚ × ℚ))
    (x y : List (Option ℚ)) : Option (ℚ × ℚ × ℚ × ℚ) :=
  let xc := maCompress x
  let yc := maCompress y
  if xc.length = 0 ∨ yc.length = 0 then none
  else if xc.length ≠ yc.length then none
  else (gk xc yc).map (fun c => (c.1, c.2.1, c.2.2, maMin y))

/-- The observation window of `fit_lines` around one line: the section
`obs[order, low:high]` with `low = max(int(posm - 5 width), 0)` and
`high = min(int(posm + 5 width), len(row))`, and its masked x coordinates
(`np.arange(low, high)` masked like the section). -/
def fitWindow (obs : List (List (Option ℚ))) (l : Line) :
    List (Option ℚ) × List (Option ℚ) :=
  let row := obs.getD l.order.toNat []
  let low := (max (pyInt (l.posm - l.width * 5)) 0).toNat
  let high := min (pyInt (l.posm + l.width * 5)) (row.length : ℤ)
  let sect := (row.drop low).take (high - (low : ℤ)).toNat
  let xs := sect.enum.map (fun p =>
    if p.2.isSome then some (((low + p.1 : ℕ) : ℚ)) else none)
  (xs, sect)

/-- One iteration of the `fit_lines` loop: lines whose guessed `posm` or
`order` lies outside the observed image are skipped (`continue` — the flag is
NOT touched); a raising Gaussian fit sets `flag := False` (the bare
`except`); a successful fit replaces `posm` by the fitted centre `coef[1]`. -/
def fit_line (gk : List ℚ → List ℚ → Option (ℚ × ℚ × ℚ))
    (obs : List (List (Option ℚ))) (l : Line) : Line :=
  if l.posm < 0 ∨ (((obs.headD []).length : ℚ) ≤ l.posm) then l
  else if l.order < 0 ∨ ((obs.length : ℤ) ≤ l.order) then l
  else
    match gaussfit2 gk (fitWindow obs l).1 (fitWindow obs l).2 with
    | none => { l with flag := false }
    | some c => { l with posm := c.2.1 }

/-- `fit_lines`: the loop touches only the current line, so it is a map. -/
def fit_lines (gk : List ℚ → List ℚ → Option (ℚ × ℚ × ℚ))
    (obs : List (List (Option ℚ))) (lines : List Line) : List Line :=
  lines.map (fit_line gk obs)

/-- Concrete Gaussian-fit kernel for closed statements. -/
def gk0 : List ℚ → List ℚ → Option (ℚ × ℚ × ℚ) := fun _ _ => some (1, 1, 1)

/-- Concrete observation for the C6 counterexample. -/
def obsC6 : List (List (Option ℚ)) := [[some 1, some 2]]

/-- Concrete line for the C6 counterexample: guessed position `posm = -1`
lies outside the image, and the line is flagged. -/
def lineC6 : Line :=
  { wll := 1, posm := -1, posc := 0, order := 0, xfirst := 0, xlast := 0,
    width := 1, height := 1, flag := true }

/-- Pairwise non-decreasing test (`np.digitize`'s monotonicity check). -/
def pairwiseLe : List ℚ → Bool
  | [] => true
  | [_] => true
  | x :: y :: ys => decide (x ≤ y) && pairwiseLe (y :: ys)

/-- Pairwise non-increasing test. -/
def pairwiseGe : List ℚ → Bool
  | [] => true
  | [_] => true
  | x :: y :: ys => decide (y ≤ x) && pairwiseGe (y :: ys)

/-- `np.digitize(wl, bins)` (right=False): for monotonically increasing bins
the number of bins `≤ wl` (searchsorted right); for decreasing bins the
number of bins `> wl`; `none` models the ValueError raised for non-monotonic
bins (`auto_id` catches it). -/
def np_digitize (wl : ℚ) (bins : List ℚ) : Option ℕ :=
  if pairwiseLe bins then some (bins.countP (fun b => decide (b ≤ wl)))
  else if pairwiseGe bins then some (bins.countP (fun b => decide (wl < b)))
  else none

/-- The window-centre search of `auto_id`: `np.digitize` with the
`np.where(wave >= wl)[0][0]` fallback on ValueError. -/
def autoIdx (wl : ℚ) (wave : List ℚ) : ℕ :=
  match np_digitize wl wave with
  | some i => i
  | none => wave.findIdx (fun w => decide (wl ≤ w))

/-- `np.ma.median`: the median of the unmasked values. -/
def maMedian (xs : List (Option ℚ)) : ℚ := median (maCompress xs)

/-- `np.argmin`: first index of the minimum (0 on the empty list). -/
def npArgmin (xs : List ℚ) : ℕ :=
  match xs.enum with
  | [] => 0
  | p :: ps => (ps.foldl (fun b q => if q.2 < b.2 then q else b) p).1

/-- One iteration of the `auto_id` loop (the loop touches only the current
line).  `pf` abstracts `scipy.signal.find_peaks(vec, height)`, returning peak
indices into `vec`. -/
def auto_id_line (pf : List (Option ℚ) → ℚ → List ℕ) (thr : ℚ)
    (obs : List (List (Option ℚ))) (wave : List (List ℚ)) (l : Line) : Line :=
  if l.flag then l
  else if l.order < 0 ∨ ((obs.length : ℤ) ≤ l.order) then l
  else
    let waveRow := wave.getD l.order.toNat []
    let obsRow := obs.getD l.order.toNat []
    if l.wll < waveRow.headD 0 ∨ waveRow.getLastD 0 ≤ l.wll then l
    else
      let width := l.width * 10
      let idx := autoIdx l.wll waveRow
      let low := (max (pyInt ((idx : ℚ) - width)) 0).toNat
      let high := min (pyInt ((idx : ℚ) + width)) (obsRow.length : ℤ)
      let vec := (obsRow.drop low).take (high - (low : ℤ)).toNat
      if vec.all (fun v => v.isNone) then l
      else
        let peak_idx := pf vec (maMedian vec)
        if peak_idx.isEmpty then l
        else
          let waveSlice := (waveRow.drop low).take (high - (low : ℤ)).toNat
          let residual := peak_idx.map (fun p =>
            |l.wll - waveSlice.getD p 0| / l.wll * speed_of_light)
          let j := npArgmin residual
          if residual.getD j 0 < thr then
            { l with flag := true, posm := ((low + peak_idx.getD j 0 : ℕ) : ℚ) }
          else l

/-- `auto_id`: map the per-line step over the list. -/
def auto_id (pf : List (Option ℚ) → ℚ → List ℕ) (thr : ℚ)
    (obs : List (List (Option ℚ))) (wave : List (List ℚ))
    (lines : List Line) : List Line :=
  lines.map (auto_id_line pf thr obs wave)

/-- Concrete peak finder for closed statements: the first entry, when the
window is nonempty (indices are always in range). -/
def pf0 : List (Option ℚ) → ℚ → List ℕ := fun v _ => if v.length = 0 then [] else [0]

/-- Concrete observation for the C3 witness. -/
def obsC3 : List (List (Option ℚ)) := [[some 0, some 5, some 0, some 1]]

/-- Concrete wavelength image for the C3 witness. -/
def waveC3 : List (List ℚ) := [[1, 2, 3, 4]]

/-- Concrete unflagged line for the C3 witness: its catalogue wavelength 2
falls exactly on pixel 1 of the wavelength image. -/
def lineC3 : Line :=
  { wll := 2, posm := 0, posc := 0, order := 0, xfirst := 0, xlast := 0,
    width := 1/10, height := 1, flag := false }

/-- `np.zeros((h, w))`. -/
def zeros2 (h w : ℕ) : List (List ℚ) := List.replicate h (List.replicate w 0)

/-- numpy slice assignment `row[first : first + len(vals)] = vals`. -/
def writeSeg (row : List ℚ) (first : ℕ) (vals : List ℚ) : List ℚ :=
  row.enum.map (fun p =>
    if first ≤ p.1 ∧ p.1 < first + vals.length then vals.getD (p.1 - first) p.2
    else p.2)

/-- Replace row `r` of a 2D array. -/
def setRow (img : List (List ℚ)) (r : ℕ) (row : List ℚ) : List (List ℚ) :=
  img.enum.map (fun p => if p.1 = r then row else p.2)

/-- `create_image_from_lines`: a `(max_order - min_order + 1) × ncol` zero
image with `height * signal.gaussian(last - first, width)` written at row
`order - min_order`, columns `[first, last)`, for every line with
non-negative order whose extent intersects the image.  `g` abstracts
`scipy.signal.gaussian` (a length-M window of reals).  The empty line list
(on which `np.min` would raise) yields the junk value `[]`; all callers pass
a non-empty catalogue. -/
def create_image_from_lines (g : ℕ → ℚ → List ℚ) (ncol : ℕ)
    (lines : List Line) : List (List ℚ) :=
  match lines.map (fun l => l.order) with
  | [] => []
  | o :: os =>
    let minO := os.foldl min o
    let maxO := os.foldl max o
    lines.foldl (fun img l =>
      if l.order < 0 then img
      else if l.xlast < 0 ∨ ((ncol : ℤ) < l.xfirst) then img
      else
        let first := (max l.xfirst 0).toNat
        let last := (min l.xlast (ncol : ℤ)).toNat
        let r := (l.order - minO).toNat
        let vals := (g (last - first) l.width).map (fun v => l.height * v)
        setRow img r (writeSeg (img.getD r []) first vals))
      (zeros2 (maxO - minO + 1).toNat ncol)

/-- Zero-padded entry access used by the correlation sums. -/
def bEntry (b : List (List ℚ)) (i j : ℤ) : ℚ :=
  if 0 ≤ i ∧ 0 ≤ j then (b.getD i.toNat []).getD j.toNat 0 else 0

/-- One entry of the full 2D cross-correlation
(`scipy.signal.correlate2d(a, b, mode="full")`):
`out[k,l] = Σ_pq a[p][q] * b[p-k+hb-1][q-l+wb-1]`. -/
def corrFullEntry (a b : List (List ℚ)) (k l : ℤ) : ℚ :=
  ((List.range a.length).map (fun p =>
    ((List.range (a.getD p []).length).map (fun q =>
      (a.getD p []).getD q 0 *
        bEntry b ((p : ℤ) - k + (b.length : ℤ) - 1)
          ((q : ℤ) - l + (((b.headD []).length : ℤ)) - 1))).sum)).sum

/-- `scipy.signal.correlate2d(a, b, mode="same")`: the centred block of the
full correlation with the shape of `a`:
`same[i][j] = full[i + (hb-1)//2][j + (wb-1)//2]`. -/
def correlate2d_same (a b : List (List ℚ)) : List (List ℚ) :=
  (List.range a.length).map (fun i =>
    (List.range (a.headD []).length).map (fun j =>
      corrFullEntry a b ((i : ℤ) + (((b.length - 1) / 2 : ℕ) : ℤ))
        ((j : ℤ) + ((((b.headD []).length - 1) / 2 : ℕ) : ℤ))))

/-- `np.argmax` of a 1D float list: first index of the maximum (0 if empty). -/
def npArgmax (xs : List ℚ) : ℕ :=
  match xs.enum with
  | [] => 0
  | p :: ps => (ps.foldl (fun b q => if q.2 > b.2 then q else b) p).1

/-- `np.argmax` of a 2D array: row-major over the flattened data
(`np.unravel_index` then recovers `(row, col)` from the column count). -/
def npArgmaxFlat (rows : List (List ℚ)) : ℕ := npArgmax rows.flatten

/-- Zero-padded entry access for the 1D correlation. -/
def vEntry (v : List ℚ) (i : ℤ) : ℚ := if 0 ≤ i then v.getD i.toNat 0 else 0

/-- One entry of `scipy.signal.correlate(a, v, mode="full")`:
`out[k] = Σ_p a[p] * v[p - k + len(v) - 1]`. -/
def corrFullEntry1 (a v : List ℚ) (k : ℤ) : ℚ :=
  ((List.range a.length).map (fun p =>
    a.getD p 0 * vEntry v ((p : ℤ) - k + (v.length : ℤ) - 1))).sum

/-- `scipy.signal.correlate(a, v, mode="same")`. -/
def correlate_same (a v : List ℚ) : List ℚ :=
  (List.range a.length).map (fun k =>
    corrFullEntry1 a v ((k : ℤ) + (((v.length - 1) / 2 : ℕ) : ℤ)))

/-- `align`, automatic headless path (`manual = False`, `plot = 0`): build a
reference image from the lines, 2D-cross-correlate it with the (mask-filled)
observation, convert the argmax of the correlation to an (order, pixel)
offset by centring on the array midpoint, apply it to all lines; when
`shift_window ≠ 0`, additionally 1D-correlate each order within a bounded
window and shift that order's lines. -/
def align (g : ℕ → ℚ → List ℚ) (ncol : ℕ) (shiftWindow : ℚ)
    (obs : List (List ℚ)) (lines : List Line) : List Line :=
  let img := create_image_from_lines g ncol lines
  let corr := correlate2d_same obs img
  let flat := npArgmaxFlat corr
  let w1 := (obs.headD []).length
  let offset_order := pyInt ((flat / w1 : ℕ) - (img.length : ℚ) / 2 + 1)
  let offset_x := pyInt ((flat % w1 : ℕ) - (ncol : ℚ) / 2 + 1)
  let lines1 := apply_alignment_offset lines (offset_order, offset_x) none
  if shiftWindow = 0 then lines1
  else
    let img1 := create_image_from_lines g ncol lines1
    let a := (max offset_order 0).toNat
    (List.range' a (min obs.length img1.length - a)).foldl
      (fun ls i =>
        let c1 := correlate_same (obs.getD i []) (img1.getD i [])
        let width := (pyInt ((ncol : ℚ) * shiftWindow)).toNat / 2
        let low := ncol / 2 - width
        let high := ncol / 2 + width
        let ox := npArgmax ((c1.drop low).take (high - low)) + low
        let ox2 := pyInt ((ox : ℚ) - (ncol : ℚ) / 2 + 1)
        apply_alignment_offset ls (0, ox2)
          (some (ls.map (fun l => decide (l.order = (i : ℤ)))))) lines1

/-- Concrete stand-in for the `scipy.signal.gaussian` window in closed
statements (the all-zero observation makes the window values irrelevant). -/
def g0 : ℕ → ℚ → List ℚ := fun m _ => List.replicate m 1

/-- Concrete lines for the C7 counterexample: one line per order 0..3. -/
def linesC7 : List Line :=
  [{ wll := 1, posm := 2, posc := 2, order := 0, xfirst := 1, xlast := 3,
     width := 1, height := 1, flag := true },
   { wll := 2, posm := 2, posc := 2, order := 1, xfirst := 1, xlast := 3,
     width := 1, height := 1, flag := true },
   { wll := 3, posm := 2, posc := 2, order := 2, xfirst := 1, xlast := 3,
     width := 1, height := 1, flag := true },
   { wll := 4, posm := 2, posc := 2, order := 3, xfirst := 1, xlast := 3,
     width := 1, height := 1, flag := true }]

/-! ### Helper lemmas for the rejection loop -/

theorem length_unflagAt (ls : List Line) (i : ℕ) :
    (unflagAt ls i).length = ls.length := by
  induction ls generalizing i with
  | nil => rfl
  | cons l ls ih =>
    cases i with
    | zero => rfl
    | succ n => simp [unflagAt, ih]

theorem flaggedCount_unflagAt (ls : List Line) (i : ℕ) (l : Line)
    (hget : ls[i]? = some l) (hflag : l.flag = true) :
    flaggedCount (unflagAt ls i) + 1 = flaggedCount ls := by
  induction ls generalizing i with
  | nil => simp at hget
  | cons l0 ls ih =>
    cases i with
    | zero =>
      simp only [List.getElem?_cons_zero, Option.some.injEq] at hget
      subst hget
      simp [unflagAt, flaggedCount, List.countP_cons, hflag]
    | succ n =>
      simp only [List.getElem?_cons_succ] at hget
      have := ih n hget
      simp [unflagAt, flaggedCount, List.countP_cons] at this ⊢
      omega

theorem foldl_pick_mem (xs : List (ℕ × ℚ)) (x : ℕ × ℚ) :
    xs.foldl (fun b p => if p.2 > b.2 then p else b) x ∈ x :: xs := by
  induction xs generalizing x with
  | nil => simp
  | cons p ps ih =>
    simp only [List.foldl_cons]
    rcases List.mem_cons.mp (ih (if p.2 > x.2 then p else x)) with h | h
    · rw [h]
      by_cases hc : p.2 > x.2 <;> simp [hc]
    · simp [h]

theorem mem_residPairs {rs : List (Option ℚ)} {i : ℕ} {v : ℚ}
    (h : (i, v) ∈ rs.enum.filterMap (fun p => p.2.map (fun w => (p.1, |w|)))) :
    ∃ w, rs[i]? = some (some w) ∧ v = |w| := by
  rcases List.mem_filterMap.mp h with ⟨⟨j, r⟩, hmem, heq⟩
  cases r with
  | none => simp at heq
  | some w =>
    simp only [Option.map_some', Option.some.injEq, Prod.mk.injEq] at heq
    obtain ⟨hj, hv⟩ := heq
    subst hj
    refine ⟨w, ?_, hv.symm⟩
    have := List.mk_mem_enum_iff_getElem?.mp hmem
    simpa using this

theorem residPairs_ne_nil {thr : ℚ} {rs : List (Option ℚ)}
    (h : anyExceeds thr rs = true) :
    rs.enum.filterMap (fun p => p.2.map (fun w => (p.1, |w|))) ≠ [] := by
  rcases List.any_eq_true.mp h with ⟨r, hmem, hr⟩
  cases r with
  | none => simp at hr
  | some v =>
    rcases List.mem_iff_getElem?.mp hmem with ⟨i, hi⟩
    intro hnil
    have : (i, |v|) ∈ rs.enum.filterMap (fun p => p.2.map (fun w => (p.1, |w|))) := by
      refine List.mem_filterMap.mpr ⟨(i, some v), ?_, rfl⟩
      exact List.mk_mem_enum_iff_getElem?.mpr hi
    rw [hnil] at this
    simp at this

theorem maArgmaxAbs_flagged {thr : ℚ} {rs : List (Option ℚ)}
    (h : anyExceeds thr rs = true) :
    ∃ w, rs[maArgmaxAbs rs]? = some (some w) := by
  unfold maArgmaxAbs
  cases hpairs : rs.enum.filterMap (fun p => p.2.map (fun v => (p.1, |v|))) with
  | nil => exact absurd hpairs (residPairs_ne_nil h)
  | cons x xs =>
    have hmem := foldl_pick_mem xs x
    rw [← hpairs] at hmem
    obtain ⟨w, hw, _⟩ := mem_residPairs hmem
    exact ⟨w, hw⟩

theorem flaggedCount_reject_outlier {thr : ℚ} {sol : WSolution} {lines : List Line}
    (h : anyExceeds thr (calculate_residual sol lines) = true) :
    flaggedCount (reject_outlier (calculate_residual sol lines) lines) + 1 =
      flaggedCount lines := by
  obtain ⟨w, hw⟩ := maArgmaxAbs_flagged h
  set i := maArgmaxAbs (calculate_residual sol lines) with hi
  rw [calculate_residual] at hw
  rw [List.getElem?_map] at hw
  cases hl : lines[i]? with
  | none => rw [hl] at hw; simp at hw
  | some l =>
    rw [hl] at hw
    simp only [Option.map_some', Option.some.injEq] at hw
    have hflag : l.flag = true := by
      by_contra hfl
      simp [hfl] at hw
    exact flaggedCount_unflagAt lines i l hl hflag

theorem rejectLoop_ok_sound (fit : List Line → Option WSolution) (thr : ℚ) :
    ∀ (fuel : ℕ) (lines : List Line) (nbad : ℕ) (l' : List Line) (k : ℕ),
      rejectLoop fit thr fuel lines nbad = .ok l' k →
      ∃ sol, fit l' = some sol ∧
        anyExceeds thr (calculate_residual sol l') = false := by
  intro fuel
  induction fuel with
  | zero => intro lines nbad l' k h; simp [rejectLoop] at h
  | succ n ih =>
    intro lines nbad l' k h
    rw [rejectLoop] at h
    cases hfit : fit lines with
    | none => rw [hfit] at h; simp at h
    | some sol =>
      rw [hfit] at h
      simp only at h
      by_cases hex : anyExceeds thr (calculate_residual sol lines) = true
      · rw [if_pos hex] at h
        exact ih _ _ _ _ h
      · rw [if_neg hex] at h
        cases h
        exact ⟨sol, hfit, Bool.eq_false_iff.mpr hex⟩

theorem rejectLoop_bounds (fit : List Line → Option WSolution) (thr : ℚ) :
    ∀ (fuel : ℕ) (lines : List Line) (nbad : ℕ),
      flaggedCount lines < fuel →
      rejectLoop fit thr fuel lines nbad ≠ .outOfFuel ∧
      (∀ l' k, rejectLoop fit thr fuel lines nbad = .ok l' k →
        k ≤ nbad + flaggedCount lines) ∧
      (∀ k, rejectLoop fit thr fuel lines nbad = .fitError k →
        k ≤ nbad + flaggedCount lines) := by
  intro fuel
  induction fuel with
  | zero => intro lines nbad hlt; omega
  | succ n ih =>
    intro lines nbad hlt
    rw [rejectLoop]
    cases hfit : fit lines with
    | none =>
      refine ⟨by simp, ?_, ?_⟩
      · intro l' k h; simp at h
      · intro k h
        simp only [RejectOutcome.fitError.injEq] at h
        omega
    | some sol =>
      simp only
      by_cases hex : anyExceeds thr (calculate_residual sol lines) = true
      · rw [if_pos hex]
        have hcount := flaggedCount_reject_outlier hex
        have hlt' : flaggedCount (reject_outlier (calculate_residual sol lines) lines) < n := by
          omega
        obtain ⟨h1, h2, h3⟩ := ih _ (nbad + 1) hlt'
        refine ⟨h1, ?_, ?_⟩
        · intro l' k h
          have := h2 l' k h
          omega
        · intro k h
          have := h3 k h
          omega
      · rw [if_neg hex]
        refine ⟨by simp, ?_, ?_⟩
        · intro l' k h
          simp only [RejectOutcome.ok.injEq] at h
          omega
        · intro k h; simp at h

/-- Claim C1: for every line list on which `reject_lines` returns, every line
still flagged on return has absolute velocity residual at most the configured
threshold, where the residual is computed against the solution rebuilt from
the final flagged set. -/
theorem C1_reject_lines_residual_bound
    (fit : List Line → Option WSolution) (thr : ℚ) (lines l' : List Line) (k : ℕ)
    (h : reject_lines fit thr lines = .ok l' k) :
    ∃ sol, fit l' = some sol ∧
      ∀ l ∈ l', l.flag = true → |lineResidual sol l| ≤ thr := by
  obtain ⟨sol, hfit, hex⟩ := rejectLoop_ok_sound fit thr _ _ _ _ _ h
  refine ⟨sol, hfit, ?_⟩
  intro l hl hflag
  have hmem : (some (lineResidual sol l)) ∈ calculate_residual sol l' := by
    rw [calculate_residual]
    have := List.mem_map_of_mem (fun x => if x.flag then some (lineResidual sol x) else none) hl
    simpa [hflag] using this
  have hall := List.any_eq_false.mp (by simpa [anyExceeds] using hex) _ hmem
  simp only [decide_eq_true_eq, not_lt] at hall
  exact hall

/-- Claim C4: the rejection loop of `reject_lines` terminates in at most
(number of lines) iterations: the fuel `length + 1` is never exhausted, the
rejection count is bounded by the number of (flagged) lines, and each pass
unflags exactly one currently flagged line. -/
theorem C4_reject_lines_terminates
    (fit : List Line → Option WSolution) (thr : ℚ) (lines : List Line) :
    reject_lines fit thr lines ≠ .outOfFuel ∧
    (∀ l' k, reject_lines fit thr lines = .ok l' k → k ≤ lines.length) ∧
    (∀ k, reject_lines fit thr lines = .fitError k → k ≤ lines.length) ∧
    (∀ sol, anyExceeds thr (calculate_residual sol lines) = true →
      flaggedCount (reject_outlier (calculate_residual sol lines) lines) + 1 =
        flaggedCount lines) := by
  have hcount : flaggedCount lines ≤ lines.length := List.countP_le_length _
  obtain ⟨h1, h2, h3⟩ :=
    rejectLoop_bounds fit thr (lines.length + 1) lines 0 (by omega)
  refine ⟨h1, ?_, ?_, ?_⟩
  · intro l' k h
    have := h2 l' k h
    omega
  · intro k h
    have := h3 k h
    omega
  · intro sol hex
    exact flaggedCount_reject_outlier hex

/-- Claim C9: if the flag set is already converged (no flagged line's residual
under the solution built from the current flags exceeds the threshold), then
`reject_lines` changes nothing: it returns the very same line list, with zero
rejections. -/
theorem C9_reject_lines_idempotent
    (fit : List Line → Option WSolution) (thr : ℚ) (lines : List Line)
    (sol : WSolution) (hfit : fit lines = some sol)
    (hconv : anyExceeds thr (calculate_residual sol lines) = false) :
    reject_lines fit thr lines = .ok lines 0 := by
  unfold reject_lines
  rw [rejectLoop, hfit]
  simp [hconv]

theorem anyExceedsW :
    anyExceeds 100 (calculate_residual (WSolution.oneD [[1]]) linesW) = false := by
  norm_num [anyExceeds, calculate_residual, linesW, lineResidual,
    evaluate_solution, polyval, speed_of_light]

theorem rejectW : reject_lines fitW 100 linesW = .ok linesW 0 := by
  unfold reject_lines
  rw [rejectLoop]
  rw [show fitW linesW = some (WSolution.oneD [[1]]) from rfl]
  simp [anyExceedsW]

/-- Witness for C1 at a concrete input: `fitW` / `linesW` converge at once. -/
theorem C1_witness :
    ∃ sol, fitW linesW = some sol ∧
      ∀ l ∈ linesW, l.flag = true → |lineResidual sol l| ≤ 100 :=
  C1_reject_lines_residual_bound fitW 100 linesW linesW 0 rejectW

/-- Witness for C4 at a concrete input. -/
theorem C4_witness :
    reject_lines fitW 100 linesW ≠ .outOfFuel ∧ (0 : ℕ) ≤ linesW.length :=
  ⟨(C4_reject_lines_terminates fitW 100 linesW).1,
   (C4_reject_lines_terminates fitW 100 linesW).2.1 linesW 0 rejectW⟩

/-- Witness for C9 at a concrete input. -/
theorem C9_witness : reject_lines fitW 100 linesW = .ok linesW 0 :=
  C9_reject_lines_idempotent fitW 100 linesW (.oneD [[1]]) rfl anyExceedsW

/-- Claim C10 fails on the code: `apply_alignment_offset` does NOT add the
pixel shift to `posc`.  At the concrete line `lineC10` with offset
`(0, 5)`, the returned `posc` is the unchanged 3, not `posc + 5 = 8`. -/
theorem C10_counterexample :
    ((apply_alignment_offset [lineC10] (0, 5) none).headD default).posc = 3 ∧
      ((apply_alignment_offset [lineC10] (0, 5) none).headD default).posc ≠
        lineC10.posc + 5 := by
  constructor
  · rfl
  · show (3 : ℚ) ≠ 3 + 5
    norm_num

/-- Claim C10 as amended: applying an offset adds the order shift to `order`
and the pixel shift to `posm`, `xfirst` and `xlast` of every selected line,
leaving `posc` and all other fields of the selected lines, and every
non-selected line, unchanged. -/
theorem C10_apply_alignment_offset
    (off : ℤ × ℤ) (lines : List Line) (mask : List Bool) (i : ℕ) (l : Line)
    (hget : lines[i]? = some l) :
    (apply_alignment_offset lines off none)[i]? = some (applyOff off l) ∧
    (apply_alignment_offset lines off (some mask))[i]? =
      some (if mask.getD i false then applyOff off l else l) ∧
    (applyOff off l).posm = l.posm + (off.2 : ℚ) ∧
    (applyOff off l).order = l.order + off.1 ∧
    (applyOff off l).xfirst = l.xfirst + off.2 ∧
    (applyOff off l).xlast = l.xlast + off.2 ∧
    (applyOff off l).posc = l.posc ∧
    (applyOff off l).wll = l.wll ∧
    (applyOff off l).width = l.width ∧
    (applyOff off l).height = l.height ∧
    (applyOff off l).flag = l.flag := by
  refine ⟨?_, ?_, rfl, rfl, rfl, rfl, rfl, rfl, rfl, rfl, rfl⟩
  · simp [apply_alignment_offset, hget]
  · simp [apply_alignment_offset, List.getElem?_enum, hget]

/-- Witness for the amended C10 at a concrete input. -/
theorem C10_witness :
    (apply_alignment_offset [lineC10] (2, 5) none)[0]? =
      some (applyOff (2, 5) lineC10) ∧
    (applyOff (2, 5) lineC10).posc = lineC10.posc :=
  ⟨(C10_apply_alignment_offset (2, 5) [lineC10] [true] 0 lineC10 rfl).1,
   (C10_apply_alignment_offset (2, 5) [lineC10] [true] 0 lineC10 rfl).2.2.2.2.2.2.1⟩

/-- Claim C8 fails on the code: `calculate_AIC` never consults the flag.  At
the concrete input `linesC8` (one flagged line with zero residual, one
unflagged line with residual 1), the code's sample count is 2, not the 1 the
claim demands, and the code's residual sum of squares is 1, not 0. -/
theorem C8_counterexample :
    aic_n linesC8 = 2 ∧ aic_n_spec linesC8 = 1 ∧
      aic_rss solC8 linesC8 = 1 ∧ aic_rss_spec solC8 linesC8 = 0 := by
  refine ⟨rfl, rfl, ?_, ?_⟩ <;>
    norm_num [aic_rss, aic_rss_spec, linesC8, solC8, evaluate_solution, polyval]

/-- Claim C8 as amended: `calculate_AIC` computes the residual sum of squares
between predicted and catalogue wavelengths at EVERY line's original position
`posc` (the flag is ignored, so the result is invariant under arbitrary
re-flagging), the sample count n is the total number of lines, and it returns
`AIC = 2k - 2 logl` with `k = np.size(solution) + 1` and
`logl = -n/2 (1 + log 2π + log(rss/n))`. -/
theorem C8_calculate_AIC (sol : WSolution) (lines : List Line)
    (f : Line → Bool) :
    calculate_AIC sol (lines.map (fun l => { l with flag := f l })) =
      calculate_AIC sol lines ∧
    calculate_AIC sol lines =
      2 * ((solutionSize sol : ℝ) + 1) -
        2 * (-(aic_n lines : ℝ) / 2 *
          (1 + Real.log (2 * Real.pi) +
            Real.log (((aic_rss sol lines : ℚ) : ℝ) / (aic_n lines : ℝ)))) ∧
    aic_rss sol lines =
      (lines.map (fun l => (evaluate_solution sol l.posc l.order - l.wll) ^ 2)).sum ∧
    aic_n lines = lines.length := by
  refine ⟨?_, rfl, rfl, rfl⟩
  unfold calculate_AIC
  simp only [aic_n, aic_rss, List.length_map, List.map_map]
  rfl

/-! ### Helper lemmas for C2 and C5 -/

theorem polyfit_map_eq_none (kern : List ℚ → List ℚ → ℕ → List ℚ) (deg : ℕ)
    (sel : List Line) (f g : Line → ℚ) :
    polyfit kern (sel.map f) (sel.map g) deg = none ↔ sel = [] := by
  by_cases h : sel = [] <;> simp [h, polyfit, List.length_eq_zero]

theorem polyfitOrders_eq_none (kern : List ℚ → List ℚ → ℕ → List ℚ) (deg : ℕ)
    (fl : List Line) (is : List ℕ) :
    polyfitOrders kern deg fl is = none ↔
      ∃ i ∈ is, fl.filter (fun l => l.order = (i : ℤ)) = [] := by
  induction is with
  | nil => simp [polyfitOrders]
  | cons i is ih =>
    rw [polyfitOrders]
    by_cases hsel : fl.filter (fun l => l.order = (i : ℤ)) = []
    · rw [(polyfit_map_eq_none kern deg _ _ _).mpr hsel]
      exact iff_of_true rfl ⟨i, List.mem_cons_self i is, hsel⟩
    · have hne : polyfit kern
          ((fl.filter (fun l => l.order = (i : ℤ))).map (fun l => l.posm))
          ((fl.filter (fun l => l.order = (i : ℤ))).map (fun l => l.wll)) deg ≠
            none := fun hc => hsel ((polyfit_map_eq_none kern deg _ _ _).mp hc)
      rcases Option.ne_none_iff_exists'.mp hne with ⟨c, hc⟩
      rw [hc]
      show (polyfitOrders kern deg fl is).map (fun cs => c :: cs) = none ↔ _
      rw [Option.map_eq_none', ih]
      constructor
      · rintro ⟨a, ha, hsa⟩
        exact ⟨a, List.mem_cons_of_mem _ ha, hsa⟩
      · rintro ⟨a, ha, hsa⟩
        rcases List.mem_cons.mp ha with rfl | ha'
        · exact absurd hsa hsel
        · exact ⟨a, ha', hsa⟩

theorem maxOrder?_eq_none (ls : List Line) : maxOrder? ls = none ↔ ls = [] := by
  cases ls
  · simp [maxOrder?]
  · simp [maxOrder?]

theorem length_bumpAfter (δ : ℤ) (j : ℕ) (n : List ℤ) :
    (bumpAfter δ j n).length = n.length := by
  simp [bumpAfter]

theorem length_bumpFold (δ : ℤ) (js : List ℕ) (n : List ℤ) :
    (js.foldl (fun n j => bumpAfter δ j n) n).length = n.length := by
  induction js generalizing n with
  | nil => rfl
  | cons j js ih => simp [List.foldl_cons, ih, length_bumpAfter]

theorem getD_bumpAfter (δ : ℤ) (j : ℕ) (n : List ℤ) (k : ℕ) (hk : k < n.length) :
    (bumpAfter δ j n).getD k 0 =
      if j + 1 ≤ k then n.getD k 0 + δ else n.getD k 0 := by
  simp [bumpAfter, List.getD_eq_getElem?_getD, List.getElem?_map,
    List.getElem?_enum, List.getElem?_eq_getElem hk]

theorem getD_bumpFold (δ : ℤ) (js : List ℕ) (n : List ℤ) (k : ℕ)
    (hk : k < n.length) :
    (js.foldl (fun n j => bumpAfter δ j n) n).getD k 0 =
      n.getD k 0 + δ * (js.countP (fun j => decide (j + 1 ≤ k)) : ℤ) := by
  induction js generalizing n with
  | nil => simp
  | cons j js ih =>
    rw [List.foldl_cons, ih _ (by rw [length_bumpAfter]; exact hk),
      getD_bumpAfter δ j n k hk, List.countP_cons]
    split <;> simp_all <;> ring

theorem getD_range_intCast (m k : ℕ) (hk : k < m) :
    ((List.range m).map (fun i : ℕ => (i : ℤ))).getD k 0 = (k : ℤ) := by
  rw [List.getD_eq_getElem?_getD, List.getElem?_map, List.getElem?_range hk]
  rfl

/-! ### Theorems for C2 and C5 -/

/-- Claim C2 fails on the code: with one usable line and polynomial degree 6
(far fewer points than degrees of freedom), `build_2d_solution` does not
raise an insufficient-data condition in either mode — `np.polyfit` and
`lstsq` silently return an underdetermined fit (numpy only emits a
RankWarning).  In 2D mode the single line sits at order 1, position 10, so
the `scale=True` normalization stays finite.  This holds for the concrete
kernels and, by `C2_build_2d_solution_raises`, for every numerical kernel. -/
theorem C2_counterexample :
    (linesC2.filter (fun l => l.flag)).length = 1 ∧ (1 : ℕ) ≤ 6 ∧
    (build_2d_solution_1D kern0 6 linesC2).isSome = true ∧
    (linesC2b.filter (fun l => l.flag)).length = 1 ∧
    (build_2d_solution_2D kern20 (6, 6) linesC2b).isSome = true :=
  ⟨rfl, by norm_num, by decide, rfl, by decide⟩

/-- Claim C2 as amended: `build_2d_solution` raises (generic numpy/scipy
errors, not an "insufficient data" condition) exactly when the flagged
selection is empty (both modes); in 1D mode additionally when the maximum
flagged order is at most -2 (negative `np.zeros` dimension) or some order
between 0 and the maximum has no flagged line (`np.polyfit` of an empty
vector); in 2D mode additionally when a `scale=True` norm — the maximum
flagged pixel position or the maximum flagged order — is exactly 0 while the
fit degree in that direction is ≥ 1 (the rescaled coordinates are NaN/Inf
and `scipy.linalg.lstsq` rejects non-finite input).  In every other case, in
particular whenever `0 <` usable lines `≤` the degree-of-freedom count, it
silently returns an (underdetermined) fit. -/
theorem C2_build_2d_solution_raises
    (kern : List ℚ → List ℚ → ℕ → List ℚ)
    (kern2 : List ℚ → List ℚ → List ℚ → ℕ × ℕ → List (List ℚ))
    (deg : ℕ) (deg2 : ℕ × ℕ) (lines : List Line) :
    (build_2d_solution_2D kern2 deg2 lines = none ↔
      (lines.filter (fun l => l.flag) = [] ∨
        (maxQ ((lines.filter (fun l => l.flag)).map (fun l => l.posm)) = 0 ∧
          1 ≤ deg2.1) ∨
        (maxQ ((lines.filter (fun l => l.flag)).map
            (fun l => (l.order : ℚ))) = 0 ∧ 1 ≤ deg2.2))) ∧
    (build_2d_solution_1D kern deg lines = none ↔
      (lines.filter (fun l => l.flag) = [] ∨
        ∃ m, maxOrder? (lines.filter (fun l => l.flag)) = some m ∧
          (m + 1 < 0 ∨
            ∃ i < (m + 1).toNat,
              (lines.filter (fun l => l.flag)).filter
                (fun l => l.order = (i : ℤ)) = []))) := by
  constructor
  · by_cases h : lines.filter (fun l => l.flag) = []
    · simp [build_2d_solution_2D, polyfit2d, h]
    · have hlen :
          ¬((lines.filter (fun l => l.flag)).map (fun l => l.posm)).length = 0 := by
        simp [List.length_eq_zero, h]
      by_cases hsc :
          (maxQ ((lines.filter (fun l => l.flag)).map (fun l => l.posm)) = 0 ∧
            1 ≤ deg2.1) ∨
          (maxQ ((lines.filter (fun l => l.flag)).map
              (fun l => (l.order : ℚ))) = 0 ∧ 1 ≤ deg2.2)
      · simp only [build_2d_solution_2D, polyfit2d, Option.map_eq_none',
          if_neg hlen, if_pos hsc]
        exact iff_of_true (by simp) (Or.inr hsc)
      · simp only [build_2d_solution_2D, polyfit2d, Option.map_eq_none',
          if_neg hlen, if_neg hsc]
        exact iff_of_false (by simp) (by simp [h, hsc])
  · cases hm : maxOrder? (lines.filter (fun l => l.flag)) with
    | none =>
      have hfl := (maxOrder?_eq_none _).mp hm
      simp [build_2d_solution_1D, hm, hfl, maxOrder?]
    | some m =>
      have hfl : lines.filter (fun l => l.flag) ≠ [] := by
        intro h
        rw [(maxOrder?_eq_none _).mpr h] at hm
        cases hm
      by_cases hneg : m + 1 < 0
      · simp only [build_2d_solution_1D, hm]
        rw [if_pos hneg]
        simp [hfl, hneg]
      · simp only [build_2d_solution_1D, hm]
        rw [if_neg hneg]
        simp only [Option.map_eq_none', polyfitOrders_eq_none, List.mem_range]
        constructor
        · rintro ⟨i, hi, hsel⟩
          exact Or.inr ⟨m, rfl, Or.inr ⟨i, hi, hsel⟩⟩
        · rintro (h | ⟨m', hm', (h | ⟨i, hi, hsel⟩)⟩)
          · exact absurd h hfl
          · cases hm'; exact absurd h hneg
          · cases hm'; exact ⟨i, hi, hsel⟩

/-- Claim C5: provisional comb mode indices start as 0,1,2,…; every gap
larger than 1.5 × the median gap increments all subsequent indices by 1 and
every gap smaller than 0.5 × the median gap decrements them by 1 — so the
final index at position k is k + (number of big gaps before k) − (number of
small gaps before k).  On the concrete peak list with spacing 10 px, one
21 px gap and one 4 px gap, the indices show the +1 jump at the gap and the
−1 correction (repeated index) at the duplicate. -/
theorem C5_comb_mode_counting :
    (∀ (peaks : List ℤ) (k : ℕ), k < peaks.length →
      (combModeIndices peaks).getD k 0 =
        (k : ℤ) +
          (((List.range (npDiff peaks).length).filter
            (bigGap (npDiff peaks))).countP (fun j => decide (j + 1 ≤ k)) : ℤ) -
          (((List.range (npDiff peaks).length).filter
            (smallGap (npDiff peaks))).countP (fun j => decide (j + 1 ≤ k)) : ℤ)) ∧
    combModeIndices peaksC5 = [0, 1, 2, 4, 5, 6, 6, 7, 8, 9] := by
  constructor
  · intro peaks k hk
    have hlen0 : ((List.range peaks.length).map (fun i : ℕ => (i : ℤ))).length =
        peaks.length := by rw [List.length_map, List.length_range]
    simp only [combModeIndices]
    rw [getD_bumpFold (-1) _ _ k
        (by rw [length_bumpFold, hlen0]; exact hk),
      getD_bumpFold 1 _ _ k (by rw [hlen0]; exact hk),
      getD_range_intCast peaks.length k hk]
    ring
  · norm_num [combModeIndices, npDiff, peaksC5, bigGap, smallGap, median,
      sortAsc, insertSorted, bumpAfter, List.range_succ, List.enum,
      List.enumFrom]

/-- Witness for C5 at a concrete input: the closed form evaluated at the
concrete peak list, position 3 (just after the 21 px gap). -/
theorem C5_witness :
    (combModeIndices peaksC5).getD 3 0 =
      (3 : ℤ) +
        (((List.range (npDiff peaksC5).length).filter
          (bigGap (npDiff peaksC5))).countP (fun j => decide (j + 1 ≤ 3)) : ℤ) -
        (((List.range (npDiff peaksC5).length).filter
          (smallGap (npDiff peaksC5))).countP (fun j => decide (j + 1 ≤ 3)) : ℤ) :=
  C5_comb_mode_counting.1 peaksC5 3 (by decide)

/-! ### Theorems for C6 -/

/-- Claim C6 fails on the code: a line whose guessed position (`posm` or
`order`) is outside the observed image is skipped with `continue` — its flag
is NOT set to False as the claim demands.  At the concrete input,
`posm = -1` is out of range and the line stays flagged. -/
theorem C6_counterexample :
    fit_lines gk0 obsC6 [lineC6] = [lineC6] ∧ lineC6.flag = true := by
  constructor
  · show [fit_line gk0 obsC6 lineC6] = [lineC6]
    have : fit_line gk0 obsC6 lineC6 = lineC6 := by
      rw [fit_line, if_pos (Or.inl (by norm_num [lineC6]))]
    rw [this]
  · rfl

/-- Claim C6 as amended: `fit_lines` never raises (it is total); a line with
an out-of-range guess (`posm` outside the columns or `order` outside the
orders) is returned entirely unchanged — flag included; for an in-range line
whose Gaussian fit raises (including the all-masked window, which makes
`gaussfit2` raise "All values masked") only the flag is set to False; for an
in-range line whose fit succeeds, `posm` is replaced by the fitted centre
`coef[1]` and the flag is unchanged. -/
theorem C6_fit_lines_soft_failure
    (gk : List ℚ → List ℚ → Option (ℚ × ℚ × ℚ))
    (obs : List (List (Option ℚ))) (l : Line) :
    ((l.posm < 0 ∨ ((obs.headD []).length : ℚ) ≤ l.posm ∨ l.order < 0 ∨
        (obs.length : ℤ) ≤ l.order) → fit_line gk obs l = l) ∧
    (¬(l.posm < 0 ∨ ((obs.headD []).length : ℚ) ≤ l.posm ∨ l.order < 0 ∨
        (obs.length : ℤ) ≤ l.order) →
      (gaussfit2 gk (fitWindow obs l).1 (fitWindow obs l).2 = none →
        fit_line gk obs l = { l with flag := false }) ∧
      (∀ c, gaussfit2 gk (fitWindow obs l).1 (fitWindow obs l).2 = some c →
        fit_line gk obs l = { l with posm := c.2.1 })) ∧
    (maCompress (fitWindow obs l).2 = [] →
      gaussfit2 gk (fitWindow obs l).1 (fitWindow obs l).2 = none) := by
  refine ⟨?_, ?_, ?_⟩
  · intro h
    rcases h with h | h | h | h
    · rw [fit_line, if_pos (Or.inl h)]
    · rw [fit_line, if_pos (Or.inr h)]
    · by_cases hc : l.posm < 0 ∨ ((obs.headD []).length : ℚ) ≤ l.posm
      · rw [fit_line, if_pos hc]
      · rw [fit_line, if_neg hc, if_pos (Or.inl h)]
    · by_cases hc : l.posm < 0 ∨ ((obs.headD []).length : ℚ) ≤ l.posm
      · rw [fit_line, if_pos hc]
      · rw [fit_line, if_neg hc, if_pos (Or.inr h)]
  · intro hn
    push_neg at hn
    obtain ⟨h1, h2, h3, h4⟩ := hn
    have hc1 : ¬(l.posm < 0 ∨ ((obs.headD []).length : ℚ) ≤ l.posm) := by
      push_neg
      exact ⟨h1, h2⟩
    have hc2 : ¬(l.order < 0 ∨ ((obs.length : ℤ) ≤ l.order)) := by
      push_neg
      exact ⟨h3, h4⟩
    constructor
    · intro hfit
      rw [fit_line, if_neg hc1, if_neg hc2, hfit]
    · intro c hfit
      rw [fit_line, if_neg hc1, if_neg hc2, hfit]
  · intro h
    simp [gaussfit2, h]

/-- Witness for the amended C6 at a concrete out-of-range input. -/
theorem C6_witness : fit_line gk0 obsC6 lineC6 = lineC6 :=
  (C6_fit_lines_soft_failure gk0 obsC6 lineC6).1 (Or.inl (by norm_num [lineC6]))

/-! ### Helper lemmas for C3 -/

theorem foldl_pickMin_mem (xs : List (ℕ × ℚ)) (x : ℕ × ℚ) :
    xs.foldl (fun b q => if q.2 < b.2 then q else b) x ∈ x :: xs := by
  induction xs generalizing x with
  | nil => simp
  | cons p ps ih =>
    simp only [List.foldl_cons]
    rcases List.mem_cons.mp (ih (if p.2 < x.2 then p else x)) with h | h
    · rw [h]
      by_cases hc : p.2 < x.2 <;> simp [hc]
    · simp [h]

theorem npArgmin_lt (xs : List ℚ) (h : xs ≠ []) : npArgmin xs < xs.length := by
  unfold npArgmin
  cases he : xs.enum with
  | nil =>
    have hlen : xs.enum.length = 0 := by rw [he]; rfl
    rw [List.enum_length] at hlen
    exact absurd (List.length_eq_zero.mp hlen) h
  | cons p ps =>
    have hmem := foldl_pickMin_mem ps p
    rw [← he] at hmem
    have := List.mk_mem_enum_iff_getElem?.mp (by
      simpa using hmem)
    rcases List.getElem?_eq_some.mp this with ⟨hlt, _⟩
    exact hlt

theorem getD_map_resid (f : ℕ → ℚ) (xs : List ℕ) (j : ℕ) (hj : j < xs.length) :
    (xs.map f).getD j 0 = f (xs.getD j 0) := by
  rw [List.getD_eq_getElem?_getD, List.getD_eq_getElem?_getD,
    List.getElem?_map, List.getElem?_eq_getElem hj]
  simp

theorem getD_slice (xs : List ℚ) (low t pk : ℕ) (hpk : pk < t) :
    ((xs.drop low).take t).getD pk 0 = xs.getD (low + pk) 0 := by
  rw [List.getD_eq_getElem?_getD, List.getD_eq_getElem?_getD]
  rw [List.getElem?_take, if_pos hpk, List.getElem?_drop]

/-- Claim C3: auto-ID soundness.  For any peak finder whose returned indices
lie inside the searched window (true of `scipy.signal.find_peaks`), an
unflagged line is either returned completely unchanged, or — when it is newly
flagged — its new position `posm` is the absolute pixel index of the chosen
peak and its velocity residual against the wavelength image at that pixel is
strictly below the threshold; a line that ends unflagged is unchanged
(unmoved). -/
theorem C3_auto_id_soundness
    (pf : List (Option ℚ) → ℚ → List ℕ) (thr : ℚ)
    (obs : List (List (Option ℚ))) (wave : List (List ℚ)) (l : Line)
    (hpf : ∀ v h, ∀ p ∈ pf v h, p < v.length)
    (hflag : l.flag = false) :
    ((auto_id_line pf thr obs wave l).flag = true →
      ∃ p : ℕ, (auto_id_line pf thr obs wave l).posm = (p : ℚ) ∧
        |l.wll - (wave.getD l.order.toNat []).getD p 0| / l.wll *
          speed_of_light < thr) ∧
    ((auto_id_line pf thr obs wave l).flag = false →
      auto_id_line pf thr obs wave l = l) := by
  simp only [auto_id_line]
  rw [if_neg (by simp [hflag])]
  split
  · exact ⟨fun h => absurd h (by simp [hflag]), fun _ => rfl⟩
  · split
    · exact ⟨fun h => absurd h (by simp [hflag]), fun _ => rfl⟩
    · split
      · exact ⟨fun h => absurd h (by simp [hflag]), fun _ => rfl⟩
      · split
        · exact ⟨fun h => absurd h (by simp [hflag]), fun _ => rfl⟩
        · next hne =>
          split
          · next hres =>
            refine ⟨fun _ => ⟨_, rfl, ?_⟩, fun h => by simp at h⟩
            · set waveRow := wave.getD l.order.toNat [] with hwaveRow
              set obsRow := obs.getD l.order.toNat [] with hobsRow
              set low := (max (pyInt ((autoIdx l.wll waveRow : ℚ) -
                l.width * 10)) 0).toNat with hlow
              set high := min (pyInt ((autoIdx l.wll waveRow : ℚ) +
                l.width * 10)) (obsRow.length : ℤ) with hhigh
              set t := (high - (low : ℤ)).toNat with ht
              set vec := (obsRow.drop low).take t with hvec
              set P := pf vec (maMedian vec) with hP
              set f := fun p =>
                |l.wll - ((waveRow.drop low).take t).getD p 0| / l.wll *
                  speed_of_light with hf
              have hnil : P ≠ [] := fun hc => hne (by rw [hc]; rfl)
              have hRne : P.map f ≠ [] := by simpa using hnil
              have hj : npArgmin (P.map f) < (P.map f).length :=
                npArgmin_lt _ hRne
              have hj' : npArgmin (P.map f) < P.length := by
                simpa using hj
              rw [getD_map_resid f P _ hj'] at hres
              have hmem : P.getD (npArgmin (P.map f)) 0 ∈ P := by
                rw [List.getD_eq_getElem?_getD, List.getElem?_eq_getElem hj']
                exact List.getElem_mem _
              have hvlen : P.getD (npArgmin (P.map f)) 0 < vec.length :=
                hpf vec (maMedian vec) _ hmem
              have hpk : P.getD (npArgmin (P.map f)) 0 < t := by
                have h1 : vec.length ≤ t := by
                  rw [hvec]
                  exact List.length_take_le t _
                omega
              rw [hf] at hres
              rw [← getD_slice waveRow low t _ hpk]
              exact hres
          · exact ⟨fun h => absurd h (by simp [hflag]), fun _ => rfl⟩

theorem pf0_lt (v : List (Option ℚ)) (h : ℚ) : ∀ p ∈ pf0 v h, p < v.length := by
  intro p hp
  unfold pf0 at hp
  split at hp
  · simp at hp
  · next hv =>
    simp at hp
    subst hp
    omega

theorem autoC3_eval : auto_id_line pf0 100 obsC3 waveC3 lineC3 =
    { lineC3 with flag := true, posm := 1 } := by
  norm_num [auto_id_line, pf0, obsC3, waveC3, lineC3, autoIdx, np_digitize,
    pairwiseLe, pairwiseGe, pyInt, maMedian, maCompress, median, sortAsc,
    insertSorted, npArgmin, speed_of_light, List.enum, List.enumFrom,
    Int.toNat_ofNat]
  decide

/-- Witness for C3 at a concrete input: the line with catalogue wavelength 2
is newly flagged at pixel 1, where the wavelength image is exactly 2 and the
residual 0 is below the threshold. -/
theorem C3_witness :
    ∃ p : ℕ, (auto_id_line pf0 100 obsC3 waveC3 lineC3).posm = (p : ℚ) ∧
      |lineC3.wll - (waveC3.getD lineC3.order.toNat []).getD p 0| /
        lineC3.wll * speed_of_light < 100 :=
  (C3_auto_id_soundness pf0 100 obsC3 waveC3 lineC3 pf0_lt rfl).1
    (by rw [autoC3_eval])

/-! ### Helper lemmas for C7 -/

theorem zeros2_getD (h w p q : ℕ) : ((zeros2 h w).getD p []).getD q 0 = 0 := by
  by_cases hp : p < h
  · by_cases hq : q < w
    · simp [zeros2, List.getD_eq_getElem?_getD, List.getElem?_replicate, hp, hq]
    · simp [zeros2, List.getD_eq_getElem?_getD, List.getElem?_replicate, hp, hq]
  · simp [zeros2, List.getD_eq_getElem?_getD, List.getElem?_replicate, hp]

theorem corrFullEntry_zeros (h w : ℕ) (b : List (List ℚ)) (k l : ℤ) :
    corrFullEntry (zeros2 h w) b k l = 0 := by
  unfold corrFullEntry
  apply List.sum_eq_zero
  intro x hx
  rcases List.mem_map.mp hx with ⟨p, _, rfl⟩
  apply List.sum_eq_zero
  intro y hy
  rcases List.mem_map.mp hy with ⟨q, _, rfl⟩
  rw [zeros2_getD, zero_mul]

theorem correlate2d_same_zero_entries (h w : ℕ) (b : List (List ℚ)) :
    ∀ x ∈ (correlate2d_same (zeros2 h w) b).flatten, x = 0 := by
  intro x hx
  simp only [correlate2d_same] at hx
  rcases List.mem_flatten.mp hx with ⟨row, hrow, hxr⟩
  rcases List.mem_map.mp hrow with ⟨i, _, rfl⟩
  rcases List.mem_map.mp hxr with ⟨j, _, rfl⟩
  exact corrFullEntry_zeros h w b _ _

theorem foldl_pickMax_stay (ps : List (ℕ × ℚ)) (b : ℕ × ℚ)
    (hall : ∀ q ∈ ps, ¬(q.2 > b.2)) :
    ps.foldl (fun b q => if q.2 > b.2 then q else b) b = b := by
  induction ps with
  | nil => rfl
  | cons q ps ih =>
    rw [List.foldl_cons, if_neg (hall q (List.mem_cons_self q ps))]
    exact ih (fun r hr => hall r (List.mem_cons_of_mem q hr))

theorem npArgmax_all_eq (xs : List ℚ) (c : ℚ) (hall : ∀ x ∈ xs, x = c) :
    npArgmax xs = 0 := by
  cases xs with
  | nil => rfl
  | cons x t =>
    unfold npArgmax
    rw [List.enum_cons]
    simp only []
    rw [foldl_pickMax_stay]
    intro q hq
    obtain ⟨_, hget⟩ := List.mk_mem_enumFrom_iff_le_and_getElem?_sub.mp
      (show (q.1, q.2) ∈ t.enumFrom 1 from hq)
    have hq2 : q.2 ∈ t := by
      rcases List.getElem?_eq_some.mp hget with ⟨hl, hv⟩
      rw [← hv]
      exact List.getElem_mem hl
    have hx : x = c := hall x (List.mem_cons_self x t)
    have hqc : q.2 = c := hall q.2 (List.mem_cons_of_mem x hq2)
    rw [hqc]
    show ¬(c > (0, x).2)
    rw [hx]
    exact lt_irrefl c

/-- For an all-zero observation the 2D cross-correlation surface is
identically zero, `np.argmax` falls to the flat index 0 = position (0, 0),
and `align` (headless automatic path, per-order pass disabled) applies the
midpoint offset `(int(0 - H/2 + 1), int(0 - ncol/2 + 1))` — H the height of
the rendered reference image — to every line.  There is no zero-offset
fallback in the code. -/
theorem align_zero_obs (g : ℕ → ℚ → List ℚ) (ncol h w : ℕ) (hh : 0 < h)
    (lines : List Line) :
    align g ncol 0 (zeros2 h w) lines =
      apply_alignment_offset lines
        (pyInt ((0 : ℚ) -
            ((create_image_from_lines g ncol lines).length : ℚ) / 2 + 1),
         pyInt ((0 : ℚ) - (ncol : ℚ) / 2 + 1)) none := by
  have hflat : npArgmaxFlat
      (correlate2d_same (zeros2 h w) (create_image_from_lines g ncol lines)) =
        0 :=
    npArgmax_all_eq _ 0 (correlate2d_same_zero_entries h w _)
  simp only [align, hflat]
  norm_num

/-! ### Theorems for C7 -/

/-- Claim C7 fails on the code: for the degenerate all-zero 4-order, 6-column
observation, the automatic alignment does NOT fall back to a zero offset —
the argmax of the all-zero correlation is index (0,0), which centres to the
offset (-1, -2), and every line is shifted: `posm` goes from 2 to 0 and the
orders from 0..3 to -1..2. -/
theorem C7_counterexample :
    (align g0 6 0 (zeros2 4 6) linesC7).map (fun l => l.posm) = [0, 0, 0, 0] ∧
    linesC7.map (fun l => l.posm) = [2, 2, 2, 2] ∧
    (align g0 6 0 (zeros2 4 6) linesC7).map (fun l => l.order) = [-1, 0, 1, 2] ∧
    linesC7.map (fun l => l.order) = [0, 1, 2, 3] := by
  have himg : (create_image_from_lines g0 6 linesC7).length = 4 := by
    norm_num [create_image_from_lines, zeros2, setRow, writeSeg, g0, linesC7,
      List.enum, List.enumFrom]
  have h := align_zero_obs g0 6 4 6 (by norm_num) linesC7
  rw [himg] at h
  rw [h]
  refine ⟨?_, rfl, ?_, rfl⟩
  · norm_num [apply_alignment_offset, applyOff, linesC7, pyInt]
  · norm_num [apply_alignment_offset, applyOff, linesC7, pyInt]

/-- Claim C7 as amended: on a degenerate all-zero observation (no correlation
peak exists) the automatic headless alignment applies the midpoint-centred
offset of the argmax index (0,0), namely
`(int(0 - H/2 + 1), int(0 - ncol/2 + 1))` with `H` the rendered reference
image height — an offset that is in general nonzero (for example `(-1, -2)`
at H = 4, ncol = 6) — rather than falling back to a zero offset; no
exception is raised on this path. -/
theorem C7_align_degenerate (g : ℕ → ℚ → List ℚ) (ncol h w : ℕ) (hh : 0 < h)
    (lines : List Line) :
    align g ncol 0 (zeros2 h w) lines =
      apply_alignment_offset lines
        (pyInt ((0 : ℚ) -
            ((create_image_from_lines g ncol lines).length : ℚ) / 2 + 1),
         pyInt ((0 : ℚ) - (ncol : ℚ) / 2 + 1)) none :=
  align_zero_obs g ncol h w hh lines

/-- Witness for the amended C7 at the concrete degenerate input. -/
theorem C7_witness :
    align g0 6 0 (zeros2 4 6) linesC7 =
      apply_alignment_offset linesC7
        (pyInt ((0 : ℚ) -
            ((create_image_from_lines g0 6 linesC7).length : ℚ) / 2 + 1),
         pyInt ((0 : ℚ) - (6 : ℚ) / 2 + 1)) none := by
  have := C7_align_degenerate g0 6 4 6 (by norm_num) linesC7
  norm_num at this ⊢
  exact this

end PyReduce
